import Mathlib

/-!
Verification development for the NDVI Explorer raster pipeline
(`src/ndvi_app.py`).

The numeric layer of the program (numpy/xarray over float64 with NaN as the
nodata sentinel) is shallowly embedded with exact rational arithmetic
extended by the three IEEE-754 non-finite cases relevant here: `nan`,
`inf` and `ninf`.  All reductions used by the app (`max(dim="time")`,
`.mean()`, `.min()`, `.max()`, `coarsen(...).mean()`) default to
`skipna=True` in xarray, i.e. they are the NaN-skipping reductions;
they are embedded as such.
-/

namespace NdviExplorer

/-- A float64 cell value: NaN, +inf, -inf, or a finite value (embedded
exactly as a rational). -/
inductive FVal where
  | nan : FVal
  | inf : FVal
  | ninf : FVal
  | fin : ℚ → FVal
deriving DecidableEq, Repr

/-- IEEE addition on cell values (no signed zero; the app only ever adds
band values). -/
def fadd : FVal → FVal → FVal
  | .nan, _ => .nan
  | _, .nan => .nan
  | .inf, .ninf => .nan
  | .ninf, .inf => .nan
  | .inf, _ => .inf
  | _, .inf => .inf
  | .ninf, _ => .ninf
  | _, .ninf => .ninf
  | .fin a, .fin b => .fin (a + b)

/-- IEEE subtraction on cell values. -/
def fsub : FVal → FVal → FVal
  | .nan, _ => .nan
  | _, .nan => .nan
  | .inf, .inf => .nan
  | .ninf, .ninf => .nan
  | .inf, _ => .inf
  | _, .inf => .ninf
  | .ninf, _ => .ninf
  | _, .ninf => .inf
  | .fin a, .fin b => .fin (a - b)

/-- IEEE division on cell values: `0/0` is NaN (the case the NDVI
formula of the app hits on no-data pixels), `x/0` with `x ≠ 0` is a signed
infinity, finite/infinite is zero. -/
def fdiv : FVal → FVal → FVal
  | .nan, _ => .nan
  | _, .nan => .nan
  | .inf, .inf => .nan
  | .inf, .ninf => .nan
  | .ninf, .inf => .nan
  | .ninf, .ninf => .nan
  | .inf, .fin b => if 0 ≤ b then .inf else .ninf
  | .ninf, .fin b => if 0 ≤ b then .ninf else .inf
  | .fin _, .inf => .fin 0
  | .fin _, .ninf => .fin 0
  | .fin a, .fin b =>
      if b = 0 then
        if a = 0 then .nan else if 0 < a then .inf else .ninf
      else .fin (a / b)

/-- True exactly on the NaN cell value. -/
def FVal.isNan : FVal → Bool
  | .nan => true
  | _ => false

/-- NaN-skipping pairwise maximum, the reduction step of numpy `fmax` /
xarray `max(skipna=True)`: a NaN argument is ignored, NaN results only
from two NaNs. -/
def fmax2 : FVal → FVal → FVal
  | .nan, b => b
  | a, .nan => a
  | .inf, _ => .inf
  | _, .inf => .inf
  | .ninf, b => b
  | a, .ninf => a
  | .fin a, .fin b => .fin (max a b)

/-- NaN-skipping pairwise minimum (xarray `min(skipna=True)` step). -/
def fmin2 : FVal → FVal → FVal
  | .nan, b => b
  | a, .nan => a
  | .ninf, _ => .ninf
  | _, .ninf => .ninf
  | .inf, b => b
  | a, .inf => a
  | .fin a, .fin b => .fin (min a b)

/-! ## Grids

`Grid2` is a 2-D raster (row-major), `Grid3` a time-indexed list of
2-D slices, i.e. the `time × row × column` array after a band has been
selected from the stack. -/

/-- A 2-D raster of cell values, row-major. -/
abbrev Grid2 : Type := List (List FVal)

/-- A 3-D (time × row × column) raster, as a list of 2-D time slices. -/
abbrev Grid3 : Type := List Grid2

/-- Elementwise combination of two 2-D rasters (numpy broadcasting is
never needed by the app: both operands always share one grid). -/
def elemwise2 (f : FVal → FVal → FVal) (a b : Grid2) : Grid2 :=
  List.zipWith (List.zipWith f) a b

/-- Elementwise combination of two 3-D rasters. -/
def elemwise3 (f : FVal → FVal → FVal) (a b : Grid3) : Grid3 :=
  List.zipWith (elemwise2 f) a b

/-- All cells of a 2-D raster as a flat list. -/
def cells (g : Grid2) : List FVal := List.flatten g

/-- The finite values of a list of cells (cells that are neither NaN
nor infinite), as rationals. -/
def finiteVals (l : List FVal) : List ℚ :=
  l.filterMap (fun v => match v with | .fin q => some q | _ => none)

/-- The non-NaN values of a list of cells. -/
def validVals (l : List FVal) : List FVal :=
  l.filter (fun v => !v.isNan)

/-- The check `np.isnan(a).all()`: every cell of the raster is NaN. -/
def allNaN (g : Grid2) : Bool := (cells g).all FVal.isNan

/-- NaN-skipping maximum of a list of cells (`nanmax`): NaN iff every
element is NaN. -/
def nanmaxL (l : List FVal) : FVal := l.foldl fmax2 .nan

/-- NaN-skipping minimum of a list of cells (`nanmin`). -/
def nanminL (l : List FVal) : FVal := l.foldl fmin2 .nan

/-- NaN-skipping sum of a list of cells: NaN summands are dropped. -/
def nansumL (l : List FVal) : FVal :=
  l.foldl (fun acc v => if v.isNan then acc else fadd acc v) (.fin 0)

/-- Count of non-NaN elements. -/
def countValid (l : List FVal) : Nat := (validVals l).length

/-- NaN-skipping mean (`mean(skipna=True)`): sum of the valid values
divided by their count, NaN when there is no valid value. -/
def nanmeanL (l : List FVal) : FVal :=
  if countValid l = 0 then .nan else fdiv (nansumL l) (.fin (countValid l))

/-- The `ndvi_data.mean()` of the app, over a 2-D raster. -/
def nanmeanG (g : Grid2) : FVal := nanmeanL (cells g)

/-- The `ndvi_data.min()` of the app, over a 2-D raster. -/
def nanminG (g : Grid2) : FVal := nanminL (cells g)

/-- The `ndvi_data.max()` of the app, over a 2-D raster. -/
def nanmaxG (g : Grid2) : FVal := nanmaxL (cells g)

/-- Split a list into consecutive blocks of four (the last block may be
shorter), the blocking used by `coarsen(x=4, y=4, boundary="pad")`:
padded cells are NaN, and a NaN-skipping block mean over a padded block
equals the mean over the shorter unpadded block. -/
def chunk4 {α : Type} : List α → List (List α)
  | [] => []
  | a :: b :: c :: d :: rest => [a, b, c, d] :: chunk4 rest
  | l => [l]

/-- The cells of column-block `j` inside a row block. -/
def blockCells (rowBlock : List (List FVal)) (j : Nat) : List FVal :=
  rowBlock.flatMap (fun row => (chunk4 row).getD j [])

/-- The app call `composite.coarsen(x=4, y=4, boundary="pad").mean()`:
each output cell is the NaN-skipping mean of a (up to) 4×4 input
block. -/
def coarsenMean4 (g : Grid2) : Grid2 :=
  (chunk4 g).map (fun rowBlock =>
    (List.range ((chunk4 (rowBlock.headD [])).length)).map
      (fun j => nanmeanL (blockCells rowBlock j)))

/-- The reduction `ndvi.max(dim="time")` (xarray default `skipna=True`): NaN-skipping
maximum across the time slices, pointwise. -/
def gridComposite (g : Grid3) : Grid2 :=
  match g with
  | [] => []
  | h :: t => t.foldl (elemwise2 fmax2) h

/-- NaN-skipping time reduction of the time series of a single pixel. -/
def compositePixel (ts : List FVal) : FVal := ts.foldl fmax2 .nan

/-! ## The lazy computation graph

`stackstac` / xarray build a dask graph; `.compute()` walks the graph
from its leaves.  The leaves that cost network traffic are the band
asset reads.  Within ONE `.compute()` call dask deduplicates graph
nodes by key, so each distinct band asset of each scene is retrieved
once per materialization; nothing is cached ACROSS separate
`.compute()` calls.  `Lazy3`/`Lazy2` embed exactly the graph the app
builds, `evalN` its value semantics, and `bandsN` its retrieval
leaves. -/

/-- The two band assets the app stacks (`assets=["B08", "B04"]`). -/
inductive Band where
  | b08 : Band
  | b04 : Band
deriving DecidableEq, Repr

/-- The pixel data one scene contributes after stacking, reprojection
and clipping: its near-infrared (B08) and red (B04) rasters, with
cells outside the AOI already NaN. -/
structure SceneRaster where
  nir : Grid2
  red : Grid2
deriving DecidableEq

/-- A lazy 3-D (time × row × column) node of the dask graph. -/
inductive Lazy3 where
  | fetchBand : Band → Lazy3
  | sub3 : Lazy3 → Lazy3 → Lazy3
  | add3 : Lazy3 → Lazy3 → Lazy3
  | div3 : Lazy3 → Lazy3 → Lazy3
deriving DecidableEq, Repr

/-- A lazy 2-D node of the dask graph. -/
inductive Lazy2 where
  | maxTime : Lazy3 → Lazy2
  | coarsen4 : Lazy2 → Lazy2
deriving DecidableEq, Repr

/-- Value semantics of a lazy 3-D node, given the raster data of the scenes. -/
def eval3 (env : List SceneRaster) : Lazy3 → Grid3
  | .fetchBand .b08 => env.map SceneRaster.nir
  | .fetchBand .b04 => env.map SceneRaster.red
  | .sub3 a b => elemwise3 fsub (eval3 env a) (eval3 env b)
  | .add3 a b => elemwise3 fadd (eval3 env a) (eval3 env b)
  | .div3 a b => elemwise3 fdiv (eval3 env a) (eval3 env b)

/-- Value semantics of a lazy 2-D node. -/
def eval2 (env : List SceneRaster) : Lazy2 → Grid2
  | .maxTime a => gridComposite (eval3 env a)
  | .coarsen4 a => coarsenMean4 (eval2 env a)

/-- The band-asset leaves below a 3-D node (with repetition). -/
def bands3 : Lazy3 → List Band
  | .fetchBand b => [b]
  | .sub3 a b => bands3 a ++ bands3 b
  | .add3 a b => bands3 a ++ bands3 b
  | .div3 a b => bands3 a ++ bands3 b

/-- The band-asset leaves below a 2-D node. -/
def bands2 : Lazy2 → List Band
  | .maxTime a => bands3 a
  | .coarsen4 a => bands2 a

/-- Network retrievals triggered by ONE `.compute()` of a 2-D node:
one retrieval per distinct band leaf per scene (dask deduplicates
shared nodes within a single materialization). -/
def retrievalsOf (g : Lazy2) (env : List SceneRaster) : Nat :=
  (bands2 g).dedup.length * env.length

/-- Structural occurrence of one 2-D node inside another. -/
def occursIn (needle : Lazy2) (g : Lazy2) : Bool :=
  needle = g ||
    match g with
    | .maxTime _ => false
    | .coarsen4 a => occursIn needle a

/-- The NDVI graph the app builds: `(nir - red) / (nir + red)` over the
two fetched bands (lines 112–114). -/
def ndviG : Lazy3 :=
  .div3 (.sub3 (.fetchBand .b08) (.fetchBand .b04))
        (.add3 (.fetchBand .b08) (.fetchBand .b04))

/-- The composite graph: `ndvi.max(dim="time")` (line 117). -/
def compositeG : Lazy2 := .maxTime ndviG

/-- The preview graph: `composite.coarsen(x=4, y=4, boundary="pad").mean()`
(line 120). -/
def lowresG : Lazy2 := .coarsen4 compositeG

/-- The graphs the app materializes, in program order: `ndvi_img =
lowres.compute()` (line 121) then `ndvi_data = composite.compute()`
(line 122) — two separate `.compute()` calls. -/
def computeCalls : List Lazy2 := [lowresG, compositeG]

/-- How many of the materializations issued by the app evaluate a given graph
node. -/
def evalsOf (g : Lazy2) : Nat :=
  (computeCalls.filter (fun c => occursIn g c)).length

/-- Total network retrievals of the materialization
phase of one workflow run (both `.compute()` calls). -/
def workflowRetrievals (env : List SceneRaster) : Nat :=
  retrievalsOf lowresG env + retrievalsOf compositeG env

/-! ## The workflow (`compute_ndvi_workflow`, lines 84–141) -/

/-- Statistics triple (mean, min, max) as the app computes it. -/
structure Stats where
  mean : FVal
  min : FVal
  max : FVal
deriving DecidableEq

/-- Lines 124–131: the statistics-extraction stage run on the
materialized composite — `None` when every cell is NaN, else the
NaN-skipping mean/min/max. -/
def extractStats (g : Grid2) : Option Stats :=
  if allNaN g then none
  else some ⟨nanmeanG g, nanminG g, nanmaxG g⟩

/-- Input of one workflow run: the scene data the stacked assets
resolve to, and whether an internal stage (signing, stacking,
clipping, …) raises. -/
structure WfInput where
  scenes : List SceneRaster
  signFail : Bool
deriving DecidableEq

/-- A successful workflow result (the returned dict, lines 133–137). -/
structure WfResult where
  ndviData : Grid2
  ndviImg : Grid2
  statistics : Stats
deriving DecidableEq

/-- The body of `compute_ndvi_workflow` before its `except` handler:
an exception is an `Except.error`; `Except.ok none` is the all-NaN
early return (lines 124–125).  `stackstac.stack` raises on an empty
item list. -/
def workflowBody (inp : WfInput) : Except String (Option WfResult) :=
  if inp.signFail then .error "planetary_computer.sign raised"
  else if inp.scenes.isEmpty then .error "stackstac.stack: no items"
  else
    let ndviData := eval2 inp.scenes compositeG
    let ndviImg := eval2 inp.scenes lowresG
    match extractStats ndviData with
    | none => .ok none
    | some s => .ok (some ⟨ndviData, ndviImg, s⟩)

/-- The function `compute_ndvi_workflow` as its caller sees it: the `try/except`
wrapper (lines 85, 139–141) maps every raised exception to `None`,
the same value as the all-NaN early return. -/
def compute_ndvi_workflow (inp : WfInput) : Option WfResult :=
  match workflowBody inp with
  | .error _ => none
  | .ok o => o

/-! ## The footprint key: the Python built-in `hash` of `g.wkb_hex`

Line 80 keys scene footprints with `hash(g.wkb_hex)`, the Python
built-in hash of the hexadecimal well-known-binary string of the
geometry.  CPython hashes a `str` with SipHash-1-3 over its UTF-8
bytes, keyed by a 128-bit secret `(k0, k1)` drawn freshly at
interpreter startup (hash randomization, since Python 3.3), with the
empty string hashing to 0 and a raw result of `-1` mapped to `-2`.
That platform function is embedded below, with the per-process key as
an explicit argument. -/

/-- Two to the sixty-fourth, the modulus of 64-bit machine words. -/
def MOD64 : Nat := 18446744073709551616

/-- Truncate to 64 bits. -/
def wrap64 (n : Nat) : Nat := n % MOD64

/-- Rotate a 64-bit word left by `r` (for `0 < r < 64`). -/
def rotl64 (x r : Nat) : Nat := wrap64 (x <<< r) + (x >>> (64 - r))

/-- The four 64-bit state words of SipHash. -/
structure SipState where
  v0 : Nat
  v1 : Nat
  v2 : Nat
  v3 : Nat

/-- One SipHash round (the `SINGLE_ROUND` macro of CPython pyhash.c:
two half rounds). -/
def sipRound (s : SipState) : SipState :=
  let v0 := wrap64 (s.v0 + s.v1)
  let v2 := wrap64 (s.v2 + s.v3)
  let v1 := Nat.xor (rotl64 s.v1 13) v0
  let v3 := Nat.xor (rotl64 s.v3 16) v2
  let v0 := rotl64 v0 32
  let v2 := wrap64 (v2 + v1)
  let v0 := wrap64 (v0 + v3)
  let v1 := Nat.xor (rotl64 v1 17) v2
  let v3 := Nat.xor (rotl64 v3 21) v0
  let v2 := rotl64 v2 32
  ⟨v0, v1, v2, v3⟩

/-- Absorb one 64-bit message word. -/
def sipCompress (s : SipState) (t : Nat) : SipState :=
  let s := { s with v3 := Nat.xor s.v3 t }
  let s := sipRound s
  { s with v0 := Nat.xor s.v0 t }

/-- Consume full 8-byte blocks little-endian; return the state and the
remaining (fewer than eight) bytes. -/
def sipBlocks : SipState → List Nat → SipState × List Nat
  | s, b0 :: b1 :: b2 :: b3 :: b4 :: b5 :: b6 :: b7 :: rest =>
      let t := b0 + (b1 <<< 8) + (b2 <<< 16) + (b3 <<< 24) + (b4 <<< 32) +
        (b5 <<< 40) + (b6 <<< 48) + (b7 <<< 56)
      sipBlocks (sipCompress s t) rest
  | s, rest => (s, rest)

/-- Pack the trailing bytes little-endian into the low bits of the
final word. -/
def sipTail (l : List Nat) : Nat :=
  l.enum.foldl (fun acc p => acc + (p.2 <<< (8 * p.1))) 0

/-- SipHash-1-3 of a byte string under key `(k0, k1)` (CPython pyhash.c
`pysiphash`, the default `str` hash algorithm). -/
def siphash13 (k0 k1 : Nat) (msg : List Nat) : Nat :=
  let b := wrap64 (msg.length <<< 56)
  let s : SipState := ⟨Nat.xor (wrap64 k0) 8317987319222330741,
                       Nat.xor (wrap64 k1) 7237128888997146477,
                       Nat.xor (wrap64 k0) 7816392313619706465,
                       Nat.xor (wrap64 k1) 8387220255154660723⟩
  let (s, rest) := sipBlocks s msg
  let b := b + sipTail rest
  let s := sipCompress s b
  let s := { s with v2 := Nat.xor s.v2 255 }
  let s := sipRound (sipRound (sipRound s))
  Nat.xor (Nat.xor s.v0 s.v1) (Nat.xor s.v2 s.v3)

/-- The Python built-in `hash` of a `str` (given as its byte list, all
bytes ASCII here) under process hash key `(k0, k1)`: 0 for the empty
string, else SipHash-1-3 read as a signed 64-bit integer, with `-1`
mapped to `-2`. -/
def pyStrHash (k0 k1 : Nat) (s : List Nat) : Int :=
  if s.length = 0 then 0
  else
    let x := siphash13 k0 k1 s
    let sx : Int := if x < 9223372036854775808 then (x : Int) else (x : Int) - (MOD64 : Int)
    if sx = -1 then -2 else sx

/-- One hexadecimal digit character code, uppercase (shapely
`wkb_hex`). -/
def hexDigit (n : Nat) : Nat := if n < 10 then 48 + n else 55 + n

/-- The `wkb_hex` string of a geometry given its WKB bytes: two
uppercase hex character codes per byte. -/
def wkbHex (wkb : List Nat) : List Nat :=
  wkb.flatMap (fun b => [hexDigit (b / 16), hexDigit (b % 16)])

/-! ## Catalog items and `filter_best_items` (lines 75–82) -/

/-- One STAC catalog item as the dedupe stage reads it: its `id`, its
`properties["eo:cloud_cover"]` (absent when the property is missing),
its acquisition timestamp (never read by `filter_best_items`), and the
WKB bytes of its footprint geometry. -/
structure CatalogItem where
  id : Nat
  cloud : Option ℚ
  datetime : Nat
  wkb : List Nat
deriving DecidableEq, Repr

/-- The footprint key of an item: `hash(shape(item.geometry).wkb_hex)`
under the process hash key. -/
def itemKey (k0 k1 : Nat) (it : CatalogItem) : Int :=
  pyStrHash k0 k1 (wkbHex it.wkb)

/-- One row of the `gdf_items` GeoDataFrame: the pandas index (= input
position), the item id, the cloud-cover column and the hash column. -/
structure Row where
  idx : Nat
  id : Nat
  cloud : ℚ
  key : Int
deriving DecidableEq, Repr

/-- Build the row at position `i`; `item.properties["eo:cloud_cover"]`
raises `KeyError` when the property is missing (line 77). -/
def mkRow (k0 k1 : Nat) (i : Nat) (it : CatalogItem) : Except String Row :=
  match it.cloud with
  | some c => .ok ⟨i, it.id, c, itemKey k0 k1 it⟩
  | none => .error "KeyError: eo:cloud_cover"

/-- Build all rows of `gdf_items`, in input order. -/
def mkRows (k0 k1 : Nat) (items : List CatalogItem) : Except String (List Row) :=
  items.enum.mapM (fun p => mkRow k0 k1 p.1 p.2)

/-- Pandas `Series.idxmin` semantics over a group, realized as the
fold `groupby("hash")["cloud"].idxmin()` performs: the first row (in
index order) holding the minimal cloud value; the accumulator is
replaced only on a strictly smaller value. -/
def argminCloud : List Row → Option Row
  | [] => none
  | h :: t => some (t.foldl (fun acc r => if r.cloud < acc.cloud then r else acc) h)

/-- The rows of one hash group, in index order. -/
def groupRows (rows : List Row) (k : Int) : List Row :=
  rows.filter (fun r => r.key = k)

/-- The `best.id.tolist()` value: for each distinct hash the id of the
row `idxmin` selects. -/
def bestIds (rows : List Row) : List Nat :=
  ((rows.map Row.key).dedup).filterMap (fun k => (argminCloud (groupRows rows k)).map Row.id)

/-- The function `filter_best_items` (lines 75–82): key every footprint by the
Python hash of its WKB hex, group by key, keep the id of the
minimum-cloud row of each group, and return the input items whose id
is among the kept ids, in input order. -/
def filter_best_items (k0 k1 : Nat) (items : List CatalogItem) :
    Except String (List CatalogItem) := do
  let rows ← mkRows k0 k1 items
  let keep := bestIds rows
  pure (items.filter (fun it => keep.contains it.id))

/-- The cloud-cover of an item where it is known to be present (the
default is never reached under that hypothesis). -/
def cloudOf (it : CatalogItem) : ℚ := it.cloud.getD 100

/-- Positioned item `q` beats positioned item `p` when both share a
footprint key and `q` has strictly smaller cloud cover, or equal cloud
cover and an earlier position. -/
def beats (k0 k1 : Nat) (q p : Nat × CatalogItem) : Prop :=
  itemKey k0 k1 q.2 = itemKey k0 k1 p.2 ∧
    (cloudOf q.2 < cloudOf p.2 ∨ (cloudOf q.2 = cloudOf p.2 ∧ q.1 < p.1))

instance (k0 k1 : Nat) (q p : Nat × CatalogItem) : Decidable (beats k0 k1 q p) := by
  unfold beats; infer_instance

/-- The selection described by the amended specification: keep exactly
the items no other input item beats — per footprint key the item of
minimal cloud cover, ties resolved by earliest input position. -/
def dedupeSpec (k0 k1 : Nat) (items : List CatalogItem) : List CatalogItem :=
  (items.enum.filter
    (fun p => !decide (∃ q ∈ items.enum, beats k0 k1 q p))).map Prod.snd

/-! ## The main run block (lines 144–209)

The AOI ingestion, map UI and rendering are external collaborators;
the run block is modelled from the moment a GeoDataFrame `gdf` exists.
The equal-area projection itself (`to_crs("EPSG:6933")`) is performed
by an external library, so the run input carries the projected area in
square meters of each AOI feature. -/

/-- Line 24. -/
def MAX_AREA_KM2 : ℚ := 500

/-- What one press of the run button can end in. -/
inductive Outcome where
  | crashed : Outcome
  | areaExceeded : Outcome
  | noScenes : Outcome
  | analysisError : Outcome
  | noValidData : Outcome
  | done : Stats → Outcome
deriving DecidableEq

/-- Observable result of one run: the outcome, whether the STAC
catalog search (`fetch_items`, line 177) was invoked, and how many
band-asset network retrievals were triggered. -/
structure MainResult where
  outcome : Outcome
  searchInvoked : Bool
  retrievals : Nat
deriving DecidableEq

/-- Everything one run consumes: the equal-area-projected area (m²) of
each AOI feature, what the catalog search would return, the process
hash key, and the workflow input (what the signed assets resolve
to). -/
structure RunInput where
  featureAreasM2 : List ℚ
  catalog : List CatalogItem
  k0 : Nat
  k1 : Nat
  wf : WfInput
deriving DecidableEq

/-- Retrievals the workflow actually performs: none when it raises
before materialization, else both `.compute()` calls. -/
def workflowRetrievalCount (inp : WfInput) : Nat :=
  if inp.signFail || inp.scenes.isEmpty then 0 else workflowRetrievals inp.scenes

/-- The run block (lines 144–209): `gdf.to_crs("EPSG:6933").area[0]`
reads the area of the FIRST feature only (label 0); an area above
`MAX_AREA_KM2` stops before `fetch_items`; an empty search result
stops; a raising `filter_best_items` is caught by the outer handler;
a `None` workflow result reports no valid data. -/
def mainRun (inp : RunInput) : MainResult :=
  match inp.featureAreasM2.head? with
  | none => ⟨.crashed, false, 0⟩
  | some a0 =>
    if a0 / 1000000 > MAX_AREA_KM2 then ⟨.areaExceeded, false, 0⟩
    else if inp.catalog.isEmpty then ⟨.noScenes, true, 0⟩
    else
      match filter_best_items inp.k0 inp.k1 inp.catalog with
      | .error _ => ⟨.analysisError, true, 0⟩
      | .ok _ =>
        match compute_ndvi_workflow inp.wf with
        | none => ⟨.noValidData, true, workflowRetrievalCount inp.wf⟩
        | some r => ⟨.done r.statistics, true, workflowRetrievalCount inp.wf⟩

/-! ## Auxiliary definitions used by the statements

Reference (specification-side) functions the theorems compare the
embedded program against, cell accessors, and the concrete instances
the witnesses and counterexamples evaluate. -/

instance {ε α : Type} [DecidableEq ε] [DecidableEq α] : DecidableEq (Except ε α) := fun x y =>
  match x, y with
  | .ok u, .ok v =>
      if h : u = v then .isTrue (by rw [h]) else .isFalse (by intro hh; cases hh; exact h rfl)
  | .ok _, .error _ => .isFalse (by intro hh; cases hh)
  | .error _, .ok _ => .isFalse (by intro hh; cases hh)
  | .error u, .error v =>
      if h : u = v then .isTrue (by rw [h]) else .isFalse (by intro hh; cases hh; exact h rfl)

/-- Specification-side reference: the maximum of the non-NaN values of
a time series, NaN when there is none. -/
def maxOfValid (ts : List FVal) : FVal :=
  match validVals ts with
  | [] => .nan
  | h :: t => t.foldl fmax2 h

/-- Specification-side reference: minimum of a list of rationals. -/
def minQ (vs : List ℚ) : ℚ :=
  match vs with
  | [] => 0
  | h :: t => t.foldl min h

/-- Specification-side reference: maximum of a list of rationals. -/
def maxQ (vs : List ℚ) : ℚ :=
  match vs with
  | [] => 0
  | h :: t => t.foldl max h

/-- Cell accessor of a 2-D raster. -/
def getCell2 (g : Grid2) (i j : Nat) : Option FVal :=
  g[i]?.bind (fun row => row[j]?)

/-- Cell accessor of a 3-D raster (time, row, column). -/
def getCell3 (g : Grid3) (t i j : Nat) : Option FVal :=
  g[t]?.bind (fun slice => getCell2 slice i j)

/-- The per-pixel NDVI formula of lines 112–114. -/
def ndviPixel (nir red : FVal) : FVal := fdiv (fsub nir red) (fadd nir red)

/-- Rows of `gdf_items` as values (all cloud-cover properties present):
position, id, cloud, footprint key. -/
def rowsOf (k0 k1 : Nat) (items : List CatalogItem) : List Row :=
  items.enum.map (fun p => ⟨p.1, p.2.id, cloudOf p.2, itemKey k0 k1 p.2⟩)

/-- WKB of the polygon `POLYGON((0 0, 1 0, 1 1, 0 0))` (little-endian,
type 3, one ring, four points of two float64 coordinates). -/
def triWkb : List Nat :=
  [1, 3, 0, 0, 0, 1, 0, 0, 0, 4, 0, 0, 0] ++
    List.replicate 16 0 ++
    ([0, 0, 0, 0, 0, 0, 240, 63] ++ List.replicate 8 0) ++
    ([0, 0, 0, 0, 0, 0, 240, 63] ++ [0, 0, 0, 0, 0, 0, 240, 63]) ++
    List.replicate 16 0

/-- A catalog item at input position 0: id 2, cloud 10 %, acquired at
timestamp 5. -/
def itemA : CatalogItem := ⟨2, some 10, 5, triWkb⟩

/-- A catalog item at input position 1 with the same footprint and the
same cloud cover as `itemA`, but an earlier timestamp and a lower
id. -/
def itemB : CatalogItem := ⟨1, some 10, 3, triWkb⟩

/-- A catalog item whose `eo:cloud_cover` property is missing. -/
def itemNoCloud : CatalogItem := ⟨7, none, 4, triWkb⟩

/-- One scene of one valid pixel: near-infrared 200, red 100. -/
def sceneNirRed : SceneRaster := ⟨[[.fin 200]], [[.fin 100]]⟩

/-- One scene of one pixel with both bands zero (NDVI is 0/0). -/
def sceneZero : SceneRaster := ⟨[[.fin 0]], [[.fin 0]]⟩

/-- One scene whose single pixel has near-infrared 100 and red 50. -/
def sceneC6 : SceneRaster := ⟨[[.fin 100]], [[.fin 50]]⟩

/-- The composite of claim C8: cells 0.1, 0.2, 0.3 and one NaN. -/
def gridC8 : Grid2 := [[.fin (1/10), .fin (2/10)], [.fin (3/10), .nan]]

/-- Workflow input whose composite is entirely NaN. -/
def wfAllNan : WfInput := ⟨[sceneZero], false⟩

/-- Workflow input on which an internal stage raises. -/
def wfRaises : WfInput := ⟨[sceneNirRed], true⟩

/-- The time series of claim C7: `[NaN, 0.2, 0.5, NaN]`. -/
def tsC7 : List FVal := [.nan, .fin (2/10), .fin (5/10), .nan]

/-- A run input whose single AOI feature has projected area 900 km². -/
def run900 : RunInput := ⟨[900000000], [], 0, 0, ⟨[], false⟩⟩

/-- A run input whose single AOI feature has projected area 100 km². -/
def run100 : RunInput := ⟨[100000000], [], 0, 0, ⟨[], false⟩⟩

/-- A run input with two AOI features of 400 km² each (800 km² in
total). -/
def runTwoFeatures : RunInput := ⟨[400000000, 400000000], [], 0, 0, ⟨[], false⟩⟩

/-! ## General lemmas on the cell-value algebra -/

theorem fmax2_nan_left (b : FVal) : fmax2 .nan b = b := by
  cases b <;> rfl

theorem fmax2_nan_right (a : FVal) : fmax2 a .nan = a := by
  cases a <;> rfl

theorem fmin2_nan_right (a : FVal) : fmin2 a .nan = a := by
  cases a <;> rfl

theorem fmin2_nan_left (b : FVal) : fmin2 .nan b = b := by
  cases b <;> rfl

theorem fmax2_ne_nan_left (a b : FVal) (ha : a ≠ .nan) : fmax2 a b ≠ .nan := by
  cases a <;> cases b <;> simp_all [fmax2]

theorem fmin2_ne_nan_left (a b : FVal) (ha : a ≠ .nan) : fmin2 a b ≠ .nan := by
  cases a <;> cases b <;> simp_all [fmin2]

theorem isNan_iff (v : FVal) : v.isNan = true ↔ v = .nan := by
  cases v <;> simp [FVal.isNan]

theorem isNan_false_iff (v : FVal) : v.isNan = false ↔ v ≠ .nan := by
  cases v <;> simp [FVal.isNan]

/-- A NaN-skipping max fold ignores exactly the NaN elements. -/
theorem foldl_fmax2_validVals (l : List FVal) (a : FVal) :
    l.foldl fmax2 a = (validVals l).foldl fmax2 a := by
  induction l generalizing a with
  | nil => rfl
  | cons v t ih =>
    by_cases hv : v = .nan
    · subst hv
      simp only [validVals, List.filter_cons, FVal.isNan, Bool.not_true, List.foldl_cons,
        fmax2_nan_right]
      exact ih a
    · have hb : (!v.isNan) = true := by
        simp [isNan_false_iff, hv]
      simp only [validVals, List.filter_cons, hb, List.foldl_cons]
      exact ih (fmax2 a v)

/-- A NaN-skipping min fold ignores exactly the NaN elements. -/
theorem foldl_fmin2_validVals (l : List FVal) (a : FVal) :
    l.foldl fmin2 a = (validVals l).foldl fmin2 a := by
  induction l generalizing a with
  | nil => rfl
  | cons v t ih =>
    by_cases hv : v = .nan
    · subst hv
      simp only [validVals, List.filter_cons, FVal.isNan, Bool.not_true, List.foldl_cons,
        fmin2_nan_right]
      exact ih a
    · have hb : (!v.isNan) = true := by
        simp [isNan_false_iff, hv]
      simp only [validVals, List.filter_cons, hb, List.foldl_cons]
      exact ih (fmin2 a v)

theorem foldl_fmax2_ne_nan (l : List FVal) (a : FVal) (ha : a ≠ .nan) :
    l.foldl fmax2 a ≠ .nan := by
  induction l generalizing a with
  | nil => exact ha
  | cons v t ih => exact ih (fmax2 a v) (fmax2_ne_nan_left a v ha)

theorem validVals_nil_iff (l : List FVal) :
    validVals l = [] ↔ ∀ v ∈ l, v = .nan := by
  unfold validVals
  rw [List.filter_eq_nil_iff]
  refine ⟨fun h v hv => ?_, fun h v hv => ?_⟩
  · have hb := h v hv
    have : v.isNan = true := by
      by_contra hc
      exact hb (by simp [Bool.not_eq_true] at hc ⊢; simp [hc])
    exact (isNan_iff v).mp this
  · simp [h v hv, FVal.isNan]

/-- The pixel composite equals the reference maximum over the non-NaN
values. -/
theorem compositePixel_eq_maxOfValid (ts : List FVal) :
    compositePixel ts = maxOfValid ts := by
  unfold compositePixel maxOfValid
  rw [foldl_fmax2_validVals]
  cases h : validVals ts with
  | nil => rfl
  | cons h t => simp [List.foldl_cons, fmax2_nan_left]

/-- The pixel composite is NaN exactly when the whole time series is
NaN. -/
theorem compositePixel_nan_iff (ts : List FVal) :
    compositePixel ts = .nan ↔ ∀ v ∈ ts, v = .nan := by
  rw [compositePixel_eq_maxOfValid, ← validVals_nil_iff]
  unfold maxOfValid
  cases h : validVals ts with
  | nil => simp
  | cons hd tl =>
    have hhd : hd ≠ .nan := by
      have : hd ∈ validVals ts := by rw [h]; exact List.mem_cons_self hd tl
      have := List.mem_filter.mp this
      exact (isNan_false_iff hd).mp (by simpa using this.2)
    simp only [List.cons_ne_nil, iff_false]
    exact foldl_fmax2_ne_nan tl hd hhd

/-- Time reduction of a stack of 1×1 slices is the pixel composite. -/
theorem gridComposite_singleton (ts : List FVal) (hne : ts ≠ []) :
    gridComposite (ts.map (fun v => [[v]])) = [[compositePixel ts]] := by
  cases ts with
  | nil => exact absurd rfl hne
  | cons h t =>
    clear hne
    unfold gridComposite compositePixel
    simp only [List.map_cons, List.foldl_cons, fmax2_nan_left]
    induction t generalizing h with
    | nil => rfl
    | cons x xs ih =>
      simp only [List.map_cons, List.foldl_cons]
      have he : elemwise2 fmax2 [[h]] [[x]] = [[fmax2 h x]] := rfl
      rw [he]
      exact ih (fmax2 h x)

/-- Claim C7 — For every pixel, TemporalCompositor reduces the time
axis by NaN-skipping maximum: the composite value is the maximum of
the non-NaN time-series values when at least one exists, and NaN only
when the whole time series of the pixel is NaN; on a stack of 1×1
slices the grid-level reduction computes exactly this per-pixel
value. -/
theorem c7_theorem (ts : List FVal) :
    (compositePixel ts = .nan ↔ ∀ v ∈ ts, v = .nan) ∧
    compositePixel ts = maxOfValid ts ∧
    (ts ≠ [] → gridComposite (ts.map (fun v => [[v]])) = [[compositePixel ts]]) :=
  ⟨compositePixel_nan_iff ts, compositePixel_eq_maxOfValid ts,
    gridComposite_singleton ts⟩

/-- Witness for C7 at the time series `[NaN, 0.2, 0.5, NaN]` of the
specification: the grid-level composite of that series is `[[0.5]]`,
and the composite is not NaN. -/
theorem c7_witness :
    gridComposite (tsC7.map (fun v => [[v]])) = [[.fin (1/2)]] ∧
    compositePixel tsC7 ≠ .nan := by
  have h := c7_theorem tsC7
  have hpix : compositePixel tsC7 = .fin (1/2) := by
    rw [h.2.1]
    show maxOfValid [.nan, .fin (2/10), .fin (5/10), .nan] = .fin (1/2)
    unfold maxOfValid validVals
    norm_num [List.filter, FVal.isNan, fmax2]
  refine ⟨?_, ?_⟩
  · rw [h.2.2 (by simp [tsC7]), hpix]
  · rw [hpix]
    simp

/-! ## Statistics extraction (claim C8) -/

/-- Under the hypothesis that every cell is NaN or finite, the non-NaN
values are exactly the finite values. -/
theorem validVals_eq_map_fin (l : List FVal)
    (hfn : ∀ v ∈ l, v = .nan ∨ ∃ q : ℚ, v = .fin q) :
    validVals l = (finiteVals l).map FVal.fin := by
  induction l with
  | nil => rfl
  | cons v t ih =>
    have hv := hfn v (List.mem_cons_self v t)
    have ht := ih (fun x hx => hfn x (List.mem_cons_of_mem v hx))
    rcases hv with hv | ⟨q, hv⟩ <;> subst hv
    · simpa [validVals, finiteVals, List.filter_cons, FVal.isNan] using ht
    · simpa [validVals, finiteVals, List.filter_cons, FVal.isNan] using ht

theorem foldl_fmin2_map_fin (t : List ℚ) (a : ℚ) :
    (t.map FVal.fin).foldl fmin2 (.fin a) = .fin (t.foldl min a) := by
  induction t generalizing a with
  | nil => rfl
  | cons x xs ih => simpa [fmin2] using ih (min a x)

theorem foldl_fmax2_map_fin (t : List ℚ) (a : ℚ) :
    (t.map FVal.fin).foldl fmax2 (.fin a) = .fin (t.foldl max a) := by
  induction t generalizing a with
  | nil => rfl
  | cons x xs ih => simpa [fmax2] using ih (max a x)

/-- The NaN-skipping min over finite-or-NaN cells is the minimum of the
finite values. -/
theorem nanminL_eq (l : List FVal)
    (hfn : ∀ v ∈ l, v = .nan ∨ ∃ q : ℚ, v = .fin q)
    (hne : finiteVals l ≠ []) :
    nanminL l = .fin (minQ (finiteVals l)) := by
  unfold nanminL
  rw [foldl_fmin2_validVals, validVals_eq_map_fin l hfn]
  cases h : finiteVals l with
  | nil => exact absurd h hne
  | cons q t =>
    simp only [List.map_cons, List.foldl_cons, fmin2_nan_left]
    rw [foldl_fmin2_map_fin]
    simp [minQ]

/-- The NaN-skipping max over finite-or-NaN cells is the maximum of the
finite values. -/
theorem nanmaxL_eq (l : List FVal)
    (hfn : ∀ v ∈ l, v = .nan ∨ ∃ q : ℚ, v = .fin q)
    (hne : finiteVals l ≠ []) :
    nanmaxL l = .fin (maxQ (finiteVals l)) := by
  unfold nanmaxL
  rw [foldl_fmax2_validVals, validVals_eq_map_fin l hfn]
  cases h : finiteVals l with
  | nil => exact absurd h hne
  | cons q t =>
    simp only [List.map_cons, List.foldl_cons]
    rw [fmax2_nan_left, foldl_fmax2_map_fin]
    simp [maxQ]

theorem foldl_nansum_aux (l : List FVal) (a : ℚ)
    (hfn : ∀ v ∈ l, v = .nan ∨ ∃ q : ℚ, v = .fin q) :
    l.foldl (fun acc v => if v.isNan then acc else fadd acc v) (.fin a) =
      .fin (a + (finiteVals l).sum) := by
  induction l generalizing a with
  | nil => simp [finiteVals]
  | cons v t ih =>
    have hv := hfn v (List.mem_cons_self v t)
    have ht := fun x hx => hfn x (List.mem_cons_of_mem v hx)
    rcases hv with hv | ⟨q, hv⟩ <;> subst hv
    · simpa [finiteVals, FVal.isNan] using ih a ht
    · have hstep :
          List.foldl (fun acc v => if v.isNan then acc else fadd acc v) (.fin a)
              (FVal.fin q :: t) =
            List.foldl (fun acc v => if v.isNan then acc else fadd acc v) (.fin (a + q)) t := rfl
      rw [hstep, ih (a + q) ht]
      have hsum : finiteVals (FVal.fin q :: t) = q :: finiteVals t := rfl
      rw [hsum]
      simp only [List.sum_cons]
      congr 1
      ring

/-- The NaN-skipping sum over finite-or-NaN cells is the sum of the
finite values. -/
theorem nansumL_eq (l : List FVal)
    (hfn : ∀ v ∈ l, v = .nan ∨ ∃ q : ℚ, v = .fin q) :
    nansumL l = .fin ((finiteVals l).sum) := by
  unfold nansumL
  simpa using foldl_nansum_aux l 0 hfn

theorem countValid_eq (l : List FVal)
    (hfn : ∀ v ∈ l, v = .nan ∨ ∃ q : ℚ, v = .fin q) :
    countValid l = (finiteVals l).length := by
  unfold countValid
  rw [validVals_eq_map_fin l hfn, List.length_map]

theorem allNaN_iff (g : Grid2) :
    allNaN g = true ↔ ∀ v ∈ cells g, v = .nan := by
  unfold allNaN
  rw [List.all_eq_true]
  constructor
  · intro h v hv
    exact (isNan_iff v).mp (h v hv)
  · intro h v hv
    exact (isNan_iff v).mpr (h v hv)

/-- Claim C8 — StatisticsExtractor reports the no-valid-data signal
(`None`, not an exception) exactly when every cell of the materialized
composite is NaN; otherwise it returns the mean, min and max computed
over the non-NaN cells only. -/
theorem c8_theorem (g : Grid2) :
    (extractStats g = none ↔ allNaN g = true) ∧
    (∀ vs : List ℚ,
      (∀ v ∈ cells g, v = .nan ∨ ∃ q : ℚ, v = .fin q) →
      finiteVals (cells g) = vs → vs ≠ [] →
      extractStats g =
        some ⟨.fin (vs.sum / (vs.length : ℚ)), .fin (minQ vs), .fin (maxQ vs)⟩) := by
  constructor
  · unfold extractStats
    by_cases h : allNaN g = true <;> simp [h]
  · intro vs hfn hvs hne
    have hnall : allNaN g = false := by
      by_contra hc
      have : allNaN g = true := by
        cases hh : allNaN g
        · exact absurd hh hc
        · rfl
      have hall := (allNaN_iff g).mp this
      have : validVals (cells g) = [] := (validVals_nil_iff (cells g)).mpr hall
      rw [validVals_eq_map_fin (cells g) hfn, hvs] at this
      exact hne (List.map_eq_nil_iff.mp this)
    have hlen : vs.length ≠ 0 := fun h => hne (List.eq_nil_of_length_eq_zero h)
    have hcv : countValid (cells g) = vs.length := by
      rw [countValid_eq (cells g) hfn, hvs]
    unfold extractStats
    rw [hnall]
    simp only [Bool.false_eq_true, if_false, Option.some_inj]
    have hmean : nanmeanG g = .fin (vs.sum / (vs.length : ℚ)) := by
      unfold nanmeanG nanmeanL
      rw [hcv, if_neg hlen, nansumL_eq (cells g) hfn, hvs]
      have hq : ((vs.length : ℚ)) ≠ 0 := by
        exact_mod_cast hlen
      simp [fdiv, hq]
    have hmin : nanminG g = .fin (minQ vs) := by
      unfold nanminG
      rw [nanminL_eq (cells g) hfn (by rw [hvs]; exact hne), hvs]
    have hmax : nanmaxG g = .fin (maxQ vs) := by
      unfold nanmaxG
      rw [nanmaxL_eq (cells g) hfn (by rw [hvs]; exact hne), hvs]
    rw [hmean, hmin, hmax]

/-- Witness for C8: on the composite with cells 0.1, 0.2, 0.3 and one
NaN, the extractor returns mean 0.2, min 0.1, max 0.3 (and does not
report the no-valid-data signal). -/
theorem c8_witness :
    extractStats gridC8 = some ⟨.fin (1/5), .fin (1/10), .fin (3/10)⟩ := by
  have hfn : ∀ v ∈ cells gridC8, v = .nan ∨ ∃ q : ℚ, v = .fin q := by
    intro v hv
    have hc : cells gridC8 = [.fin (1/10), .fin (2/10), .fin (3/10), .nan] := rfl
    rw [hc] at hv
    rcases List.mem_cons.mp hv with h | hv
    · exact Or.inr ⟨1/10, h⟩
    rcases List.mem_cons.mp hv with h | hv
    · exact Or.inr ⟨2/10, h⟩
    rcases List.mem_cons.mp hv with h | hv
    · exact Or.inr ⟨3/10, h⟩
    rcases List.mem_cons.mp hv with h | hv
    · exact Or.inl h
    · exact absurd hv (List.not_mem_nil v)
  have h := (c8_theorem gridC8).2 [1/10, 2/10, 3/10] hfn rfl (by simp)
  rw [h]
  norm_num [minQ, maxQ]

/-! ## Index computation (claim C6) -/

/-- Pointwise reading of an elementwise combination of 2-D rasters. -/
theorem getCell2_elemwise2 (f : FVal → FVal → FVal) (A B : Grid2) (i j : Nat)
    (x y : FVal) (hA : getCell2 A i j = some x) (hB : getCell2 B i j = some y) :
    getCell2 (elemwise2 f A B) i j = some (f x y) := by
  unfold getCell2 at *
  obtain ⟨rowA, hrA, hxA⟩ := Option.bind_eq_some.mp hA
  obtain ⟨rowB, hrB, hxB⟩ := Option.bind_eq_some.mp hB
  unfold elemwise2
  rw [List.getElem?_zipWith]
  rw [hrA, hrB]
  simp only [Option.some_bind]
  rw [List.getElem?_zipWith, hxA, hxB]

/-- Pointwise reading of an elementwise combination of 3-D rasters. -/
theorem getCell3_elemwise3 (f : FVal → FVal → FVal) (A B : Grid3) (t i j : Nat)
    (x y : FVal) (hA : getCell3 A t i j = some x) (hB : getCell3 B t i j = some y) :
    getCell3 (elemwise3 f A B) t i j = some (f x y) := by
  unfold getCell3 at *
  obtain ⟨slA, hsA, hxA⟩ := Option.bind_eq_some.mp hA
  obtain ⟨slB, hsB, hxB⟩ := Option.bind_eq_some.mp hB
  unfold elemwise3
  rw [List.getElem?_zipWith, hsA, hsB]
  simp only [Option.some_bind]
  exact getCell2_elemwise2 f slA slB i j x y hxA hxB

/-- Claim C6 — For every pixel and time slice, IndexComputer computes
`(nir - red) / (nir + red)` elementwise from the two fetched bands; a
pixel with near-infrared 100 and red 50 yields 1/3, and a pixel with
both bands zero yields NaN rather than an error or zero (no zero-guard
is applied). -/
theorem c6_theorem :
    (∀ (env : List SceneRaster) (t i j : Nat) (a b : FVal),
      getCell3 (eval3 env (.fetchBand .b08)) t i j = some a →
      getCell3 (eval3 env (.fetchBand .b04)) t i j = some b →
      getCell3 (eval3 env ndviG) t i j = some (ndviPixel a b)) ∧
    ndviPixel (.fin 100) (.fin 50) = .fin (1/3) ∧
    ndviPixel (.fin 0) (.fin 0) = .nan := by
  refine ⟨?_, ?_, ?_⟩
  · intro env t i j a b hN hR
    have hE : eval3 env ndviG =
        elemwise3 fdiv
          (elemwise3 fsub (eval3 env (.fetchBand .b08)) (eval3 env (.fetchBand .b04)))
          (elemwise3 fadd (eval3 env (.fetchBand .b08)) (eval3 env (.fetchBand .b04))) := rfl
    rw [hE]
    exact getCell3_elemwise3 fdiv _ _ t i j _ _
      (getCell3_elemwise3 fsub _ _ t i j a b hN hR)
      (getCell3_elemwise3 fadd _ _ t i j a b hN hR)
  · unfold ndviPixel
    norm_num [fsub, fadd, fdiv]
  · unfold ndviPixel
    norm_num [fsub, fadd, fdiv]

/-- Witness for C6: on a single scene whose only pixel has
near-infrared 100 and red 50, the evaluated NDVI graph holds 1/3 at
that pixel. -/
theorem c6_witness :
    getCell3 (eval3 [sceneC6] ndviG) 0 0 0 = some (.fin (1/3)) := by
  have h := c6_theorem.1 [sceneC6] 0 0 0 (.fin 100) (.fin 50) rfl rfl
  rw [h, c6_theorem.2.1]

/-! ## Materialization accounting (claim C1) -/

/-- Counterexample to claim C1: in the run modelled by the two
`.compute()` calls of lines 121–122, the composite graph node is
evaluated twice (not exactly once), and the preview materialization
itself triggers band retrievals (2 for a one-scene stack) instead of
reusing realized composite values. -/
theorem c1_counterexample :
    evalsOf compositeG = 2 ∧ evalsOf compositeG ≠ 1 ∧
    retrievalsOf lowresG [sceneNirRed] = 2 ∧ retrievalsOf lowresG [sceneNirRed] ≠ 0 := by
  refine ⟨by decide, by decide, ?_, ?_⟩ <;> decide

/-- Claim C1 as amended — the workflow issues two independent
materializations (first the coarsened preview, then the composite);
each one evaluates the composite graph and retrieves every band asset
of every scene anew, so the run performs twice the retrievals of a
single composite materialization, and the preview materialization
re-triggers retrieval whenever there is at least one scene. -/
theorem c1_theorem (env : List SceneRaster) :
    workflowRetrievals env = 2 * retrievalsOf compositeG env ∧
    evalsOf compositeG = 2 ∧
    (env ≠ [] → retrievalsOf lowresG env ≠ 0) := by
  have hbands : bands2 lowresG = bands2 compositeG := rfl
  have heq : retrievalsOf lowresG env = retrievalsOf compositeG env := by
    unfold retrievalsOf
    rw [hbands]
  refine ⟨?_, by decide, ?_⟩
  · unfold workflowRetrievals
    rw [heq]
    ring
  · intro hne
    rw [heq]
    unfold retrievalsOf
    have h2 : (bands2 compositeG).dedup.length = 2 := by decide
    rw [h2]
    have : env.length ≠ 0 := fun h => hne (List.eq_nil_of_length_eq_zero h)
    exact Nat.mul_ne_zero (by norm_num) this

/-- Witness for C1 (amended) at a one-scene environment. -/
theorem c1_witness :
    workflowRetrievals [sceneNirRed] = 2 * retrievalsOf compositeG [sceneNirRed] ∧
    retrievalsOf lowresG [sceneNirRed] ≠ 0 :=
  ⟨(c1_theorem [sceneNirRed]).1, (c1_theorem [sceneNirRed]).2.2 (by simp)⟩

/-! ## Workflow error handling (claim C10) -/

/-- Claim C10 — `compute_ndvi_workflow` never propagates an exception:
a raising internal stage yields `None`, the all-NaN early return
yields `None`, and `None` arises only from those two cases — so the
`None` check of the caller cannot distinguish an all-no-data composite
from a raised exception. -/
theorem c10_theorem (inp : WfInput) :
    ((∃ e, workflowBody inp = .error e) → compute_ndvi_workflow inp = none) ∧
    (workflowBody inp = .ok none → compute_ndvi_workflow inp = none) ∧
    (compute_ndvi_workflow inp = none →
      (∃ e, workflowBody inp = .error e) ∨ workflowBody inp = .ok none) := by
  unfold compute_ndvi_workflow
  cases h : workflowBody inp with
  | error e =>
    refine ⟨fun _ => rfl, fun hh => ?_, fun _ => Or.inl ⟨e, rfl⟩⟩
    simp at hh
  | ok o =>
    cases o with
    | none => exact ⟨fun _ => rfl, fun _ => rfl, fun _ => Or.inr rfl⟩
    | some r =>
      refine ⟨fun he => ?_, fun hh => ?_, fun hh => ?_⟩
      · obtain ⟨e, he⟩ := he
        simp at he
      · simp at hh
      · simp at hh

/-- Witness for C10: a run whose signing stage raises and a run whose
composite is entirely NaN both return `None`. -/
theorem c10_witness :
    compute_ndvi_workflow wfRaises = none ∧ compute_ndvi_workflow wfAllNan = none := by
  constructor
  · exact (c10_theorem wfRaises).1 ⟨"planetary_computer.sign raised", rfl⟩
  · refine (c10_theorem wfAllNan).2.1 ?_
    have hcomp : eval2 [sceneZero] compositeG = [[.nan]] := by
      show gridComposite (eval3 [sceneZero] ndviG) = [[.nan]]
      have h3 : eval3 [sceneZero] ndviG =
          [[[fdiv (fsub (.fin 0) (.fin 0)) (fadd (.fin 0) (.fin 0))]]] := rfl
      rw [h3]
      norm_num [gridComposite, fdiv, fsub, fadd]
    show workflowBody ⟨[sceneZero], false⟩ = .ok none
    unfold workflowBody
    simp [hcomp, extractStats, allNaN, cells, FVal.isNan]

/-! ## Area validation in the run block (claims C5, C9) -/

/-- The area gate of lines 167–170 decides the run: above the limit it
stops before `fetch_items`; below it the run proceeds past the catalog
search. -/
theorem mainRun_gate (inp : RunInput) (a : ℚ) (rest : List ℚ)
    (h : inp.featureAreasM2 = a :: rest) :
    (a / 1000000 > MAX_AREA_KM2 → mainRun inp = ⟨.areaExceeded, false, 0⟩) ∧
    (¬ a / 1000000 > MAX_AREA_KM2 →
      (mainRun inp).searchInvoked = true ∧ (mainRun inp).outcome ≠ .areaExceeded) := by
  unfold mainRun
  rw [h]
  simp only [List.head?_cons]
  constructor
  · intro hgt
    rw [if_pos hgt]
  · intro hle
    rw [if_neg hle]
    by_cases hc : inp.catalog.isEmpty
    · simp [hc]
    · simp only [hc, Bool.false_eq_true, if_false]
      cases hfb : filter_best_items inp.k0 inp.k1 inp.catalog with
      | error e => simp
      | ok best =>
        cases hwf : compute_ndvi_workflow inp.wf with
        | none => simp
        | some r => simp

/-- Claim C5 — with a single-feature AOI, the run block computes the
equal-area-projected area in km² and halts with the area error before
any catalog search or imagery retrieval whenever it exceeds
`MAX_AREA_KM2 = 500`; otherwise it proceeds into the search. -/
theorem c5_theorem (inp : RunInput) (a : ℚ) (h : inp.featureAreasM2 = [a]) :
    (a / 1000000 > MAX_AREA_KM2 → mainRun inp = ⟨.areaExceeded, false, 0⟩) ∧
    (a / 1000000 ≤ MAX_AREA_KM2 →
      (mainRun inp).searchInvoked = true ∧ (mainRun inp).outcome ≠ .areaExceeded) := by
  have hm := mainRun_gate inp a [] h
  exact ⟨hm.1, fun hle => hm.2 (not_lt.mpr hle)⟩

/-- Witness for C5: a 900 km² AOI fails before the search with the
area error (and zero retrievals); a 100 km² AOI passes the area gate
and reaches the catalog search. -/
theorem c5_witness :
    mainRun run900 = ⟨.areaExceeded, false, 0⟩ ∧
    (mainRun run100).searchInvoked = true ∧
    (mainRun run100).outcome ≠ .areaExceeded := by
  refine ⟨(c5_theorem run900 900000000 rfl).1 (by norm_num [MAX_AREA_KM2]), ?_⟩
  exact (c5_theorem run100 100000000 rfl).2 (by norm_num [MAX_AREA_KM2])

/-- Claim C9 — area validation reads `gdf.to_crs("EPSG:6933").area[0]`,
the area of the first feature only: the behaviour of the run on a
multi-feature AOI equals its behaviour on the first feature alone, and
the run passes validation whenever that first feature is within the
limit, regardless of the remaining features. -/
theorem c9_theorem (inp : RunInput) (a : ℚ) (rest : List ℚ)
    (h : inp.featureAreasM2 = a :: rest) :
    mainRun inp = mainRun { inp with featureAreasM2 := [a] } ∧
    (a / 1000000 ≤ MAX_AREA_KM2 → (mainRun inp).searchInvoked = true) := by
  constructor
  · unfold mainRun
    rw [h]
    rfl
  · intro hle
    exact ((mainRun_gate inp a rest h).2 (not_lt.mpr hle)).1

/-- Witness for C9: an AOI of two 400 km² features (800 km² in total,
above the 500 km² limit) behaves like its 400 km² first feature alone
and passes validation into the catalog search. -/
theorem c9_witness :
    mainRun runTwoFeatures = mainRun { runTwoFeatures with featureAreasM2 := [400000000] } ∧
    (mainRun runTwoFeatures).searchInvoked = true ∧
    (400000000 : ℚ) / 1000000 + (400000000 : ℚ) / 1000000 > MAX_AREA_KM2 := by
  have h := c9_theorem runTwoFeatures 400000000 [400000000] rfl
  exact ⟨h.1, h.2 (by norm_num [MAX_AREA_KM2]), by norm_num [MAX_AREA_KM2]⟩

/-! ## Missing cloud cover (claim C3) -/

/-- A missing `eo:cloud_cover` property makes the row construction of
`filter_best_items` raise a `KeyError`. -/
theorem mapM_mkRow_error (k0 k1 : Nat) (l : List CatalogItem) (n : Nat)
    (hex : ∃ it ∈ l, it.cloud = none) :
    ∃ e, (List.enumFrom n l).mapM (fun p => mkRow k0 k1 p.1 p.2) = .error e := by
  induction l generalizing n with
  | nil =>
    obtain ⟨it, hmem, _⟩ := hex
    exact absurd hmem (List.not_mem_nil it)
  | cons x t ih =>
    rw [List.enumFrom_cons]
    cases hx : x.cloud with
    | none =>
      refine ⟨"KeyError: eo:cloud_cover", ?_⟩
      rw [List.mapM_cons]
      have hstep : mkRow k0 k1 n x = Except.error "KeyError: eo:cloud_cover" := by
        simp [mkRow, hx]
      rw [hstep]
      rfl
    | some c =>
      obtain ⟨it, hmem, hnone⟩ := hex
      rcases List.mem_cons.mp hmem with hit | hit
      · subst hit
        rw [hx] at hnone
        cases hnone
      · obtain ⟨e, he⟩ := ih (n + 1) ⟨it, hit, hnone⟩
        refine ⟨e, ?_⟩
        rw [List.mapM_cons]
        have hstep : mkRow k0 k1 n x = Except.ok ⟨n, x.id, c, itemKey k0 k1 x⟩ := by
          simp [mkRow, hx]
        rw [hstep, he]
        rfl

/-- Claim C3 as amended — a CatalogItem with a missing cloud-cover
percentage makes SceneDeduplicator raise a `KeyError` (surfaced as an
analysis error by the outer handler); the item is never silently
treated as 100 % cloud cover. -/
theorem c3_theorem (k0 k1 : Nat) (items : List CatalogItem) (it : CatalogItem)
    (hmem : it ∈ items) (hnone : it.cloud = none) :
    ∃ e, filter_best_items k0 k1 items = .error e := by
  obtain ⟨e, he⟩ := mapM_mkRow_error k0 k1 items 0 ⟨it, hmem, hnone⟩
  refine ⟨e, ?_⟩
  unfold filter_best_items mkRows
  rw [List.enum_eq_enumFrom, he]
  rfl

/-- Counterexample to claim C3 as stated: on an item with no
cloud-cover property, `filter_best_items` raises (`KeyError`) instead
of treating the item as 100 % cloudy. -/
theorem c3_counterexample :
    filter_best_items 0 0 [itemNoCloud] = .error "KeyError: eo:cloud_cover" := rfl

/-- Witness for C3 (amended) at the concrete one-item input. -/
theorem c3_witness : ∃ e, filter_best_items 0 0 [itemNoCloud] = .error e :=
  c3_theorem 0 0 [itemNoCloud] itemNoCloud (List.mem_cons_self itemNoCloud []) rfl

/-! ## The footprint key (claim C4) -/

set_option maxRecDepth 400000 in
/-- Counterexample to claim C4 as stated: the footprint key of one and
the same item differs under two different process hash keys, so the
`hash(g.wkb_hex)` key is not stable across interpreter runs. -/
theorem c4_counterexample : itemKey 0 0 itemA ≠ itemKey 1 0 itemA := by
  decide

set_option maxRecDepth 400000 in
/-- Claim C4 as amended — GeometryHasher is a side-effect-free
function of the WKB encoding of the footprint and of the per-process
hash key: under any fixed process key, items with bit-identical WKB
encodings map to the same key; but the key is not independent of the
process hash key, hence not run-independent. -/
theorem c4_theorem :
    (∀ (k0 k1 : Nat) (a b : CatalogItem), a.wkb = b.wkb →
      itemKey k0 k1 a = itemKey k0 k1 b) ∧
    ¬ (∀ (k0 k1 j0 j1 : Nat) (it : CatalogItem),
        itemKey k0 k1 it = itemKey j0 j1 it) := by
  constructor
  · intro k0 k1 a b h
    unfold itemKey
    rw [h]
  · intro hall
    have h := hall 0 0 1 0 itemA
    revert h
    decide

/-- Witness for C4 (amended): two items that differ in id, cloud and
timestamp but share the triangle footprint WKB receive the same key
under a fixed process hash key. -/
theorem c4_witness : itemKey 3 4 itemB = itemKey 3 4 itemA :=
  c4_theorem.1 3 4 itemB itemA rfl

/-! ## Scene deduplication (claim C2) -/

/-- The row a positioned item contributes to `gdf_items`. -/
def rowAt (k0 k1 : Nat) (p : Nat × CatalogItem) : Row :=
  ⟨p.1, p.2.id, cloudOf p.2, itemKey k0 k1 p.2⟩

/-- Row construction succeeds and yields `rowsOf` when every item
carries its cloud-cover property. -/
theorem mapM_mkRow_ok (k0 k1 : Nat) (l : List CatalogItem) (n : Nat)
    (hall : ∀ it ∈ l, it.cloud.isSome) :
    (List.enumFrom n l).mapM (fun p => mkRow k0 k1 p.1 p.2) =
      .ok ((List.enumFrom n l).map (rowAt k0 k1)) := by
  induction l generalizing n with
  | nil => rfl
  | cons x t ih =>
    obtain ⟨c, hc⟩ := Option.isSome_iff_exists.mp (hall x (List.mem_cons_self x t))
    rw [List.enumFrom_cons, List.mapM_cons]
    have hstep : mkRow k0 k1 n x = Except.ok (rowAt k0 k1 (n, x)) := by
      simp [mkRow, hc, rowAt, cloudOf]
    rw [hstep, ih (n + 1) (fun it hit => hall it (List.mem_cons_of_mem x hit))]
    rfl

theorem mkRows_ok (k0 k1 : Nat) (items : List CatalogItem)
    (hall : ∀ it ∈ items, it.cloud.isSome) :
    mkRows k0 k1 items = .ok (rowsOf k0 k1 items) := by
  unfold mkRows rowsOf
  rw [List.enum_eq_enumFrom]
  exact mapM_mkRow_ok k0 k1 items 0 hall

theorem rowsOf_eq_map (k0 k1 : Nat) (items : List CatalogItem) :
    rowsOf k0 k1 items = items.enum.map (rowAt k0 k1) := rfl

theorem rowsOf_map_id (k0 k1 : Nat) (items : List CatalogItem) :
    (rowsOf k0 k1 items).map Row.id = items.map CatalogItem.id := by
  rw [rowsOf_eq_map, List.map_map]
  have h : (Row.id ∘ rowAt k0 k1) = (CatalogItem.id ∘ Prod.snd) := rfl
  rw [h, ← List.map_map, List.enum_map_snd]

theorem rowsOf_map_key (k0 k1 : Nat) (items : List CatalogItem) :
    (rowsOf k0 k1 items).map Row.key = items.map (itemKey k0 k1) := by
  rw [rowsOf_eq_map, List.map_map]
  have h : (Row.key ∘ rowAt k0 k1) = (itemKey k0 k1 ∘ Prod.snd) := rfl
  rw [h, ← List.map_map, List.enum_map_snd]

theorem rowsOf_pairwise_idx (k0 k1 : Nat) (items : List CatalogItem) :
    (rowsOf k0 k1 items).Pairwise (fun r s => r.idx < s.idx) := by
  rw [rowsOf_eq_map]
  rw [List.pairwise_map]
  have h := List.pairwise_lt_range items.length
  rw [← List.enum_map_fst, List.pairwise_map] at h
  exact h

/-- Positioned items with equal ids coincide when the ids are
nodup. -/
theorem enum_id_inj (items : List CatalogItem)
    (hid : (items.map CatalogItem.id).Nodup)
    (p q : Nat × CatalogItem) (hp : p ∈ items.enum) (hq : q ∈ items.enum)
    (h : p.2.id = q.2.id) : p = q := by
  obtain ⟨i, a⟩ := p
  obtain ⟨j, b⟩ := q
  obtain ⟨hi, ha⟩ := List.mem_enum hp
  obtain ⟨hj, hb⟩ := List.mem_enum hq
  have hlen : i < (items.map CatalogItem.id).length := by
    rw [List.length_map]; exact hi
  have hgi : (items.map CatalogItem.id)[i]? = some a.id := by
    rw [List.getElem?_map, List.getElem?_eq_getElem hi, ha]
    rfl
  have hgj : (items.map CatalogItem.id)[j]? = some b.id := by
    rw [List.getElem?_map, List.getElem?_eq_getElem hj, hb]
    rfl
  have hij : i = j := by
    refine List.getElem?_inj hlen hid ?_
    rw [hgi, hgj, h]
  subst hij
  have hab : a = b := by
    rw [ha, hb]
  rw [hab]

/-- Members of `rowsOf` are rows of positioned input items. -/
theorem mem_rowsOf (k0 k1 : Nat) (items : List CatalogItem) (r : Row) :
    r ∈ rowsOf k0 k1 items ↔ ∃ p ∈ items.enum, rowAt k0 k1 p = r := by
  rw [rowsOf_eq_map]
  exact List.mem_map

/-- The fold of `idxmin` returns the initial row or a row of the
list. -/
theorem foldl_pick_mem (l : List Row) (a : Row) :
    l.foldl (fun acc r => if r.cloud < acc.cloud then r else acc) a = a ∨
      l.foldl (fun acc r => if r.cloud < acc.cloud then r else acc) a ∈ l := by
  induction l generalizing a with
  | nil => exact Or.inl rfl
  | cons x t ih =>
    rw [List.foldl_cons]
    rcases ih (if x.cloud < a.cloud then x else a) with h | h
    · rw [h]
      by_cases hx : x.cloud < a.cloud
      · rw [if_pos hx]
        exact Or.inr (List.mem_cons_self x t)
      · rw [if_neg hx]
        exact Or.inl rfl
    · exact Or.inr (List.mem_cons_of_mem x h)

/-- The fold of `idxmin` attains a minimal cloud value. -/
theorem foldl_pick_le (l : List Row) (a : Row) :
    (l.foldl (fun acc r => if r.cloud < acc.cloud then r else acc) a).cloud ≤ a.cloud ∧
      ∀ x ∈ l, (l.foldl (fun acc r => if r.cloud < acc.cloud then r else acc) a).cloud ≤ x.cloud := by
  induction l generalizing a with
  | nil => exact ⟨le_refl _, fun x hx => absurd hx (List.not_mem_nil x)⟩
  | cons x t ih =>
    rw [List.foldl_cons]
    obtain ⟨h1, h2⟩ := ih (if x.cloud < a.cloud then x else a)
    have hpick_a : (if x.cloud < a.cloud then x else a).cloud ≤ a.cloud := by
      by_cases hx : x.cloud < a.cloud
      · rw [if_pos hx]; exact le_of_lt hx
      · rw [if_neg hx]
    have hpick_x : (if x.cloud < a.cloud then x else a).cloud ≤ x.cloud := by
      by_cases hx : x.cloud < a.cloud
      · rw [if_pos hx]
      · rw [if_neg hx]; exact le_of_not_lt hx
    refine ⟨le_trans h1 hpick_a, fun y hy => ?_⟩
    rcases List.mem_cons.mp hy with hyx | hyt
    · rw [hyx]
      exact le_trans h1 hpick_x
    · exact h2 y hyt

/-- The fold of `idxmin` keeps the EARLIEST minimal row: any row of
minimal cloud is at or after the index of the fold result. -/
theorem foldl_pick_first (l : List Row) (a : Row)
    (hpa : ∀ x ∈ l, a.idx < x.idx) (hp : l.Pairwise (fun r s => r.idx < s.idx)) :
    ∀ x, (x = a ∨ x ∈ l) →
      x.cloud = (l.foldl (fun acc r => if r.cloud < acc.cloud then r else acc) a).cloud →
      (l.foldl (fun acc r => if r.cloud < acc.cloud then r else acc) a).idx ≤ x.idx := by
  induction l generalizing a with
  | nil =>
    intro x hx hcloud
    rcases hx with hx | hx
    · subst hx
      exact le_refl _
    · exact absurd hx (List.not_mem_nil x)
  | cons y t ih =>
    intro x hx hcloud
    have hpy := List.pairwise_cons.mp hp
    set a2 := if y.cloud < a.cloud then y else a with ha2
    have hpa2 : ∀ z ∈ t, a2.idx < z.idx := by
      intro z hz
      by_cases hy : y.cloud < a.cloud
      · rw [ha2, if_pos hy]
        exact hpy.1 z hz
      · rw [ha2, if_neg hy]
        exact hpa z (List.mem_cons_of_mem y hz)
    have hfc : (y :: t).foldl (fun acc r => if r.cloud < acc.cloud then r else acc) a =
        t.foldl (fun acc r => if r.cloud < acc.cloud then r else acc) a2 := by
      rw [List.foldl_cons]
    rw [hfc] at hcloud ⊢
    have hmin := foldl_pick_le t a2
    rcases hx with hxa | hxm
    · subst hxa
      by_cases hy : y.cloud < x.cloud
      · exfalso
        have h2 : a2.cloud = y.cloud := by rw [ha2, if_pos hy]
        have h3 : x.cloud ≤ y.cloud := by
          rw [hcloud]
          exact h2 ▸ hmin.1
        exact absurd (lt_of_lt_of_le hy h3) (lt_irrefl _)
      · have hxa2 : x = a2 := by rw [ha2, if_neg hy]
        exact ih a2 hpa2 hpy.2 x (Or.inl hxa2) hcloud
    · rcases List.mem_cons.mp hxm with hxy | hxt
      · subst hxy
        by_cases hy : x.cloud < a.cloud
        · have hxa2 : x = a2 := by rw [ha2, if_pos hy]
          exact ih a2 hpa2 hpy.2 x (Or.inl hxa2) hcloud
        · have ha2a : a2 = a := by rw [ha2, if_neg hy]
          have hle1 : (t.foldl (fun acc r => if r.cloud < acc.cloud then r else acc) a2).cloud ≤ a.cloud :=
            le_trans hmin.1 (le_of_eq (by rw [ha2a]))
          have hle2 : a.cloud ≤ x.cloud := le_of_not_lt hy
          have har : a.cloud = (t.foldl (fun acc r => if r.cloud < acc.cloud then r else acc) a2).cloud :=
            le_antisymm (le_trans hle2 (le_of_eq hcloud)) hle1
          have hidx : (t.foldl (fun acc r => if r.cloud < acc.cloud then r else acc) a2).idx ≤ a.idx :=
            ih a2 hpa2 hpy.2 a (Or.inl ha2a.symm) har
          exact le_trans hidx (le_of_lt (hpa x (List.mem_cons_self x t)))
      · exact ih a2 hpa2 hpy.2 x (Or.inr hxt) hcloud

/-- Characterization of pandas `idxmin` over a group whose rows have
strictly increasing indices: the selected row belongs to the group,
attains the minimal cloud value, and among minimal rows has the least
index. -/
theorem argminCloud_spec (g : List Row) (r : Row)
    (hp : g.Pairwise (fun r s => r.idx < s.idx))
    (h : argminCloud g = some r) :
    r ∈ g ∧ (∀ x ∈ g, r.cloud ≤ x.cloud) ∧
      (∀ x ∈ g, x.cloud = r.cloud → r.idx ≤ x.idx) := by
  cases g with
  | nil => cases h
  | cons h0 t =>
    have hr : t.foldl (fun acc r => if r.cloud < acc.cloud then r else acc) h0 = r := by
      have := h
      unfold argminCloud at this
      exact Option.some_inj.mp this
    have hpy := List.pairwise_cons.mp hp
    subst hr
    refine ⟨?_, ?_, ?_⟩
    · rcases foldl_pick_mem t h0 with hm | hm
      · rw [hm]
        exact List.mem_cons_self h0 t
      · exact List.mem_cons_of_mem h0 hm
    · intro x hx
      rcases List.mem_cons.mp hx with hx0 | hxt
      · rw [hx0]
        exact (foldl_pick_le t h0).1
      · exact (foldl_pick_le t h0).2 x hxt
    · intro x hx hcloud
      rcases List.mem_cons.mp hx with hx0 | hxt
      · exact foldl_pick_first t h0 hpy.1 hpy.2 x (Or.inl hx0) hcloud
      · exact foldl_pick_first t h0 hpy.1 hpy.2 x (Or.inr hxt) hcloud

theorem argminCloud_ne_none (g : List Row) (hne : g ≠ []) :
    ∃ r, argminCloud g = some r := by
  cases g with
  | nil => exact absurd rfl hne
  | cons h t => exact ⟨_, rfl⟩

/-- Two rows of a strictly index-sorted list with the same index
coincide. -/
theorem pairwise_idx_inj (g : List Row)
    (hp : g.Pairwise (fun r s => r.idx < s.idx)) :
    ∀ x ∈ g, ∀ y ∈ g, x.idx = y.idx → x = y := by
  induction g with
  | nil =>
    intro x hx
    exact absurd hx (List.not_mem_nil x)
  | cons h t ih =>
    have hpy := List.pairwise_cons.mp hp
    intro x hx y hy hxy
    rcases List.mem_cons.mp hx with hx0 | hxt <;>
      rcases List.mem_cons.mp hy with hy0 | hyt
    · rw [hx0, hy0]
    · subst hx0
      exact absurd hxy (Nat.ne_of_lt (hpy.1 y hyt))
    · subst hy0
      exact absurd hxy.symm (Nat.ne_of_lt (hpy.1 x hxt))
    · exact ih hpy.2 x hxt y hyt hxy

theorem mem_groupRows (rows : List Row) (k : Int) (r : Row) :
    r ∈ groupRows rows k ↔ r ∈ rows ∧ r.key = k := by
  unfold groupRows
  rw [List.mem_filter]
  simp

theorem groupRows_pairwise (rows : List Row) (k : Int)
    (hp : rows.Pairwise (fun r s => r.idx < s.idx)) :
    (groupRows rows k).Pairwise (fun r s => r.idx < s.idx) :=
  List.Pairwise.sublist (List.filter_sublist rows) hp

theorem mem_bestIds (rows : List Row) (i : Nat) :
    i ∈ bestIds rows ↔
      ∃ k ∈ (rows.map Row.key).dedup,
        ∃ r, argminCloud (groupRows rows k) = some r ∧ r.id = i := by
  unfold bestIds
  rw [List.mem_filterMap]
  constructor
  · rintro ⟨k, hk, hmap⟩
    obtain ⟨r, hr, hid⟩ := Option.map_eq_some'.mp hmap
    exact ⟨k, hk, r, hr, hid⟩
  · rintro ⟨k, hk, r, hr, hid⟩
    refine ⟨k, hk, ?_⟩
    rw [hr]
    simp [hid]

/-- Central characterization: with all cloud-cover properties present
and pairwise distinct ids, a positioned item survives
`filter_best_items` exactly when no other positioned item beats it
(strictly lower cloud in the same footprint group, or equal cloud and
earlier position). -/
theorem keep_iff (k0 k1 : Nat) (items : List CatalogItem)
    (hid : (items.map CatalogItem.id).Nodup)
    (p : Nat × CatalogItem) (hp : p ∈ items.enum) :
    p.2.id ∈ bestIds (rowsOf k0 k1 items) ↔
      ¬ ∃ q ∈ items.enum, beats k0 k1 q p := by
  have hpw : (rowsOf k0 k1 items).Pairwise (fun r s => r.idx < s.idx) :=
    rowsOf_pairwise_idx k0 k1 items
  have hrp : rowAt k0 k1 p ∈ rowsOf k0 k1 items :=
    (mem_rowsOf k0 k1 items _).mpr ⟨p, hp, rfl⟩
  constructor
  · rintro hbest ⟨q, hq, hbeats⟩
    obtain ⟨k, hk, r, hargmin, hrid⟩ := (mem_bestIds _ _).mp hbest
    have hspec := argminCloud_spec _ r (groupRows_pairwise _ k hpw) hargmin
    have hrin : r ∈ rowsOf k0 k1 items := ((mem_groupRows _ k r).mp hspec.1).1
    have hrkey : r.key = k := ((mem_groupRows _ k r).mp hspec.1).2
    obtain ⟨p0, hp0, hp0r⟩ := (mem_rowsOf k0 k1 items r).mp hrin
    have hpp0 : p0 = p := by
      refine enum_id_inj items hid p0 p hp0 hp ?_
      have h1 : (rowAt k0 k1 p0).id = p.2.id := by rw [hp0r, hrid]
      exact h1
    rw [hpp0] at hp0r
    have hkeyp : itemKey k0 k1 p.2 = k := by
      have h1 : itemKey k0 k1 p.2 = (rowAt k0 k1 p).key := rfl
      rw [h1, hp0r, hrkey]
    have hqrow : rowAt k0 k1 q ∈ groupRows (rowsOf k0 k1 items) k := by
      refine (mem_groupRows _ k _).mpr ⟨(mem_rowsOf k0 k1 items _).mpr ⟨q, hq, rfl⟩, ?_⟩
      show itemKey k0 k1 q.2 = k
      rw [hbeats.1, hkeyp]
    have hrc : r.cloud = cloudOf p.2 := by
      rw [← hp0r]
      rfl
    rcases hbeats.2 with hlt | ⟨heq, hidx⟩
    · have hle := hspec.2.1 (rowAt k0 k1 q) hqrow
      rw [hrc] at hle
      have hle2 : cloudOf p.2 ≤ cloudOf q.2 := hle
      exact absurd (lt_of_lt_of_le hlt hle2) (lt_irrefl _)
    · have hcq : (rowAt k0 k1 q).cloud = r.cloud := by
        rw [hrc]
        exact heq
      have hfirst := hspec.2.2 (rowAt k0 k1 q) hqrow hcq
      have hridx : r.idx = p.1 := by
        rw [← hp0r]
        rfl
      have hqidx : (rowAt k0 k1 q).idx = q.1 := rfl
      rw [hridx, hqidx] at hfirst
      omega
  · intro hnb
    have hkmem : (rowAt k0 k1 p).key ∈ ((rowsOf k0 k1 items).map Row.key).dedup :=
      List.mem_dedup.mpr (List.mem_map.mpr ⟨rowAt k0 k1 p, hrp, rfl⟩)
    have hgmem : rowAt k0 k1 p ∈ groupRows (rowsOf k0 k1 items) ((rowAt k0 k1 p).key) :=
      (mem_groupRows _ _ _).mpr ⟨hrp, rfl⟩
    obtain ⟨r, hargmin⟩ := argminCloud_ne_none (groupRows (rowsOf k0 k1 items) ((rowAt k0 k1 p).key))
      (fun hnil => by rw [hnil] at hgmem; exact absurd hgmem (List.not_mem_nil _))
    have hspec := argminCloud_spec _ r (groupRows_pairwise _ _ hpw) hargmin
    have hrin : r ∈ rowsOf k0 k1 items := ((mem_groupRows _ _ r).mp hspec.1).1
    have hrkey : r.key = (rowAt k0 k1 p).key := ((mem_groupRows _ _ r).mp hspec.1).2
    obtain ⟨q0, hq0, hq0r⟩ := (mem_rowsOf k0 k1 items r).mp hrin
    have hq0key : itemKey k0 k1 q0.2 = itemKey k0 k1 p.2 := by
      have h1 : itemKey k0 k1 q0.2 = (rowAt k0 k1 q0).key := rfl
      rw [h1, hq0r, hrkey]
      rfl
    have hq0cloud : cloudOf q0.2 = r.cloud := by
      rw [← hq0r]
      rfl
    have hq0idx : q0.1 = r.idx := by
      rw [← hq0r]
      rfl
    have hminle : r.cloud ≤ cloudOf p.2 := hspec.2.1 (rowAt k0 k1 p) hgmem
    have hcloudeq : r.cloud = cloudOf p.2 := by
      rcases lt_or_eq_of_le hminle with hlt | heq
      · exfalso
        apply hnb
        refine ⟨q0, hq0, hq0key, Or.inl ?_⟩
        rw [hq0cloud]
        exact hlt
      · exact heq
    have hidxle : r.idx ≤ (rowAt k0 k1 p).idx := by
      refine hspec.2.2 (rowAt k0 k1 p) hgmem ?_
      rw [hcloudeq]
      rfl
    have hidxeq : r.idx = (rowAt k0 k1 p).idx := by
      rcases lt_or_eq_of_le hidxle with hlt | heq
      · exfalso
        apply hnb
        refine ⟨q0, hq0, hq0key, Or.inr ⟨?_, ?_⟩⟩
        · rw [hq0cloud, hcloudeq]
        · rw [hq0idx]
          exact hlt
      · exact heq
    have hreq : r = rowAt k0 k1 p :=
      pairwise_idx_inj _ (groupRows_pairwise _ _ hpw) r hspec.1 (rowAt k0 k1 p) hgmem hidxeq
    refine (mem_bestIds _ _).mpr ⟨(rowAt k0 k1 p).key, hkmem, r, hargmin, ?_⟩
    rw [hreq]
    rfl

/-- With every cloud-cover property present, `filter_best_items`
succeeds and is the id-membership filter against the per-group best
ids. -/
theorem filter_best_items_ok (k0 k1 : Nat) (items : List CatalogItem)
    (hall : ∀ it ∈ items, it.cloud.isSome) :
    filter_best_items k0 k1 items =
      .ok (items.filter
        (fun it => (bestIds (rowsOf k0 k1 items)).contains it.id)) := by
  unfold filter_best_items
  rw [mkRows_ok k0 k1 items hall]
  rfl

/-- The id-membership filter equals the specification-side selection
when ids are pairwise distinct. -/
theorem filter_best_eq_dedupeSpec (k0 k1 : Nat) (items : List CatalogItem)
    (hid : (items.map CatalogItem.id).Nodup) :
    items.filter (fun it => (bestIds (rowsOf k0 k1 items)).contains it.id) =
      dedupeSpec k0 k1 items := by
  unfold dedupeSpec
  have h1 : items.filter (fun it => (bestIds (rowsOf k0 k1 items)).contains it.id) =
      (items.enum.map Prod.snd).filter
        (fun it => (bestIds (rowsOf k0 k1 items)).contains it.id) := by
    rw [List.enum_map_snd]
  rw [h1, List.filter_map]
  congr 1
  refine List.filter_congr ?_
  intro p hp
  have hiff := keep_iff k0 k1 items hid p hp
  show (bestIds (rowsOf k0 k1 items)).contains p.2.id =
    !decide (∃ q ∈ items.enum, beats k0 k1 q p)
  refine Bool.coe_iff_coe.mp ?_
  rw [List.elem_iff]
  simp only [Bool.not_eq_true', decide_eq_false_iff_not]
  exact hiff

/-- The selection is a subsequence of the input. -/
theorem dedupeSpec_sublist (k0 k1 : Nat) (items : List CatalogItem) :
    (dedupeSpec k0 k1 items).Sublist items := by
  unfold dedupeSpec
  have h := List.Sublist.map Prod.snd
    (List.filter_sublist (l := items.enum)
      (p := fun p => !decide (∃ q ∈ items.enum, beats k0 k1 q p)))
  rw [List.enum_map_snd] at h
  exact h

/-- Per footprint key the surviving selection holds exactly one
item. -/
theorem filter_best_perkey (k0 k1 : Nat) (items : List CatalogItem)
    (hid : (items.map CatalogItem.id).Nodup)
    (k : Int) (hk : k ∈ items.map (itemKey k0 k1)) :
    ((items.filter (fun it => (bestIds (rowsOf k0 k1 items)).contains it.id)).filter
      (fun it => decide (itemKey k0 k1 it = k))).length = 1 := by
  have hpw := rowsOf_pairwise_idx k0 k1 items
  -- the argmin row of group k and its positioned item
  have hkrows : k ∈ (rowsOf k0 k1 items).map Row.key := by
    rw [rowsOf_map_key]
    exact hk
  obtain ⟨r0, hr0, hr0k⟩ := List.mem_map.mp hkrows
  have hgne : groupRows (rowsOf k0 k1 items) k ≠ [] := by
    intro hnil
    have : r0 ∈ groupRows (rowsOf k0 k1 items) k :=
      (mem_groupRows _ k r0).mpr ⟨hr0, hr0k⟩
    rw [hnil] at this
    exact absurd this (List.not_mem_nil r0)
  obtain ⟨r, hargmin⟩ := argminCloud_ne_none _ hgne
  have hspec := argminCloud_spec _ r (groupRows_pairwise _ k hpw) hargmin
  have hrin : r ∈ rowsOf k0 k1 items := ((mem_groupRows _ k r).mp hspec.1).1
  have hrkey : r.key = k := ((mem_groupRows _ k r).mp hspec.1).2
  obtain ⟨pb, hpb, hpbr⟩ := (mem_rowsOf k0 k1 items r).mp hrin
  rw [List.filter_filter]
  have hcongr : ∀ it ∈ items,
      (decide (itemKey k0 k1 it = k) &&
        (bestIds (rowsOf k0 k1 items)).contains it.id) = (it == pb.2) := by
    intro it hit
    refine Bool.coe_iff_coe.mp ?_
    rw [Bool.and_eq_true, List.elem_iff, beq_iff_eq, decide_eq_true_eq]
    constructor
    · rintro ⟨hkey, hmem⟩
      obtain ⟨pi, hpi, hpisnd⟩ := List.mem_map.mp
        (by rw [List.enum_map_snd]; exact hit :
          it ∈ items.enum.map Prod.snd)
      obtain ⟨k2, _, r2, hargmin2, hr2id⟩ := (mem_bestIds _ _).mp hmem
      have hspec2 := argminCloud_spec _ r2 (groupRows_pairwise _ k2 hpw) hargmin2
      have hr2in : r2 ∈ rowsOf k0 k1 items := ((mem_groupRows _ k2 r2).mp hspec2.1).1
      have hr2key : r2.key = k2 := ((mem_groupRows _ k2 r2).mp hspec2.1).2
      obtain ⟨p2, hp2, hp2r⟩ := (mem_rowsOf k0 k1 items r2).mp hr2in
      have hp2pi : p2 = pi := by
        refine enum_id_inj items hid p2 pi hp2 hpi ?_
        have h1 : (rowAt k0 k1 p2).id = it.id := by rw [hp2r, hr2id]
        rw [hpisnd]
        exact h1
      have hk2 : k2 = k := by
        rw [← hr2key, ← hp2r, hp2pi]
        show itemKey k0 k1 pi.2 = k
        rw [hpisnd]
        exact hkey
      rw [hk2] at hargmin2
      have hr2r : r2 = r := by
        have := hargmin.symm.trans hargmin2
        exact (Option.some_inj.mp this).symm
      have hpipb : pi = pb := by
        refine enum_id_inj items hid pi pb hpi hpb ?_
        have h1 : pi.2.id = (rowAt k0 k1 p2).id := by
          rw [hp2pi]
          rfl
        have h2 : (rowAt k0 k1 p2).id = r.id := by rw [hp2r, hr2r]
        have h3 : r.id = (rowAt k0 k1 pb).id := by
          rw [← hpbr]
        rw [h1, h2, h3]
        rfl
      rw [← hpisnd, hpipb]
    · intro heq
      subst heq
      constructor
      · have h1 : itemKey k0 k1 pb.2 = (rowAt k0 k1 pb).key := rfl
        rw [h1, hpbr, hrkey]
      · refine (mem_bestIds _ _).mpr ⟨k, List.mem_dedup.mpr hkrows, r, hargmin, ?_⟩
        rw [← hpbr]
        rfl
  rw [List.filter_congr hcongr]
  have hnodup : items.Nodup := List.Nodup.of_map CatalogItem.id hid
  have hpbmem : pb.2 ∈ items := by
    obtain ⟨_, hgetb⟩ := List.mem_enum hpb
    rw [hgetb]
    exact List.getElem_mem _
  rw [← List.countP_eq_length_filter]
  exact List.count_eq_one_of_mem hnodup hpbmem

set_option maxRecDepth 400000 in
/-- Counterexample to claim C2 as stated: `itemA` (position 0, id 2,
timestamp 5) and `itemB` (position 1, id 1, timestamp 3) share a
footprint and tie on cloud cover; the claim requires keeping the
earlier-timestamp, lower-id `itemB`, but pandas `idxmin` keeps the
first occurrence of the minimum, `itemA`. -/
theorem c2_counterexample :
    filter_best_items 0 0 [itemA, itemB] = .ok [itemA] ∧
    itemA.wkb = itemB.wkb ∧ itemA.cloud = itemB.cloud ∧
    itemB.datetime < itemA.datetime ∧ itemB.id < itemA.id ∧ itemA ≠ itemB := by
  refine ⟨by decide, rfl, rfl, by decide, by decide, by decide⟩

/-- Claim C2 as amended — for a sequence of CatalogItems that all
carry cloud cover and have pairwise distinct identifiers,
SceneDeduplicator returns the subsequence (order preserved, no new
items) of items not beaten by any other input item: per distinct
footprint key exactly one item survives, the one of minimal
cloud-cover percentage, with ties broken by EARLIEST INPUT POSITION
(not by acquisition timestamp or identifier). -/
theorem c2_theorem (k0 k1 : Nat) (items : List CatalogItem)
    (hall : ∀ it ∈ items, it.cloud.isSome)
    (hid : (items.map CatalogItem.id).Nodup) :
    filter_best_items k0 k1 items = .ok (dedupeSpec k0 k1 items) ∧
    (dedupeSpec k0 k1 items).Sublist items ∧
    ∀ k ∈ items.map (itemKey k0 k1),
      ((dedupeSpec k0 k1 items).filter
        (fun it => decide (itemKey k0 k1 it = k))).length = 1 := by
  refine ⟨?_, dedupeSpec_sublist k0 k1 items, ?_⟩
  · rw [filter_best_items_ok k0 k1 items hall, filter_best_eq_dedupeSpec k0 k1 items hid]
  · intro k hk
    rw [← filter_best_eq_dedupeSpec k0 k1 items hid]
    exact filter_best_perkey k0 k1 items hid k hk

/-- Witness for C2 (amended) at the two-item tie input. -/
theorem c2_witness :
    filter_best_items 0 0 [itemA, itemB] = .ok (dedupeSpec 0 0 [itemA, itemB]) :=
  (c2_theorem 0 0 [itemA, itemB] (by decide) (by decide)).1

end NdviExplorer
